import Mathlib

/-!
# Verification of `dynamics_generation.py`

A shallow embedding of the symbolic-dynamics derivation and code-generation
module of the SuccessiveConvexification repository.  The Python code builds,
with sympy, a symbolic right-hand side `f` (14 entries), its Jacobians
`A = s*df/dx` and `B = s*df/du`, a slow-path numeric evaluator (`Dynamics.get`)
and a generated fast numeric module (`Dynamics.generate_functions`).

The embedding models:
* sympy symbols by the inductive type `Sym` (names as in the source);
* sympy expressions by the AST `Expr` with the automatic simplifications sympy
  performs on construction (`x*0 = 0`, `x+0 = x`, numeric folding, ...)
  captured by the smart constructors `Expr.addS`, `Expr.mulS`, `Expr.divS`;
* numeric evaluation of an expression by `Expr.evalWith`, polymorphic over the
  scalar field and the square-root routine (instantiated at `ℝ`/`Real.sqrt`
  in the theorems), plus a partial evaluator `Expr.evalOpt` that refuses
  division by zero and square roots of negatives (modelling the
  error/non-finite behaviour of the floating evaluation);
* sympy's exact symbolic differentiation by `Expr.derivE`;
* the canonical string form `str(expr)` used by the generator's zero test and
  by the emitted assignment text by the printer `Expr.printWith`/`Expr.printE`
  (numerals are printed by `natStr`/`intStr`);
* Python's `str.replace` by `replaceStr` (left-to-right, non-overlapping).
-/

namespace SCvx

/-- The sympy symbols appearing in `dynamics_generation.py`: the 14 state
symbols `m, r0..r2, v0..v2, q0..q3, w0..w2`, the controls `u0..u2`, the time
scaling `s`, and the symbolic-mode constants `alpha`, `rTB0..rTB2`,
`gx, gy, gz`, `J00..J22`. -/
inductive Sym : Type
  | m : Sym
  | r : Fin 3 → Sym
  | v : Fin 3 → Sym
  | q : Fin 4 → Sym
  | w : Fin 3 → Sym
  | u : Fin 3 → Sym
  | s : Sym
  | alpha : Sym
  | rTB : Fin 3 → Sym
  | g : Fin 3 → Sym
  | J : Fin 3 → Fin 3 → Sym
  deriving DecidableEq, Repr

/-- Decimal digits of a natural number (most significant first); the first
argument is recursion fuel, adequate whenever `fuel ≥ n`. -/
def natStrAux : ℕ → ℕ → List Char
  | 0, _ => []
  | fuel + 1, n => if n = 0 then [] else natStrAux fuel (n / 10) ++ [Nat.digitChar (n % 10)]

/-- Decimal string of a natural number. -/
def natStr (n : ℕ) : String := if n = 0 then "0" else String.mk (natStrAux n n)

/-- Decimal string of an integer. -/
def intStr (i : ℤ) : String := if i < 0 then "-" ++ natStr i.natAbs else natStr i.natAbs

/-- The string names the source gives to each symbol
(`symbols('m')`, `symbols('r0 r1 r2')`, `symbols('gx gy gz')`,
`symbols('J00')`, ...). -/
def Sym.name : Sym → String
  | .m => "m"
  | .r i => "r" ++ natStr i
  | .v i => "v" ++ natStr i
  | .q i => "q" ++ natStr i
  | .w i => "w" ++ natStr i
  | .u i => "u" ++ natStr i
  | .s => "s"
  | .alpha => "alpha"
  | .rTB i => "rTB" ++ natStr i
  | .g i => !["gx", "gy", "gz"] i
  | .J i j => "J" ++ natStr i ++ natStr j

/-- Symbolic expressions: the fragment of sympy used by the source
(integer constants, symbols, `+`, `*`, `/`, `sqrt`; the one non-integer
numeric literal of the source, the coefficient one-half of line 73, is
represented exactly as the quotient `div (const 1) (const 2)`). -/
inductive Expr : Type
  | const : ℤ → Expr
  | var : Sym → Expr
  | add : Expr → Expr → Expr
  | mul : Expr → Expr → Expr
  | div : Expr → Expr → Expr
  | sqrt : Expr → Expr
  deriving DecidableEq, Repr

namespace Expr

/-- Addition with sympy's automatic evaluation: numeric constants fold and
zero summands disappear. -/
def addS (a b : Expr) : Expr :=
  match a, b with
  | const p, const q => const (p + q)
  | _, _ =>
    if a = const 0 then b
    else if b = const 0 then a
    else add a b

/-- Multiplication with sympy's automatic evaluation: numeric constants fold,
zero annihilates, one disappears. -/
def mulS (a b : Expr) : Expr :=
  match a, b with
  | const p, const q => const (p * q)
  | _, _ =>
    if a = const 0 ∨ b = const 0 then const 0
    else if a = const 1 then b
    else if b = const 1 then a
    else mul a b

/-- Division with sympy's automatic evaluation: a zero numerator collapses
and a unit denominator disappears. -/
def divS (a b : Expr) : Expr :=
  if a = const 0 then const 0
  else if b = const 1 then a
  else div a b

/-- Subtraction, as sympy represents it: `a + (-1)*b`. -/
def subS (a b : Expr) : Expr := addS a (mulS (const (-1)) b)

instance : Add Expr := ⟨addS⟩
instance : Mul Expr := ⟨mulS⟩
instance : Sub Expr := ⟨subS⟩
instance : Neg Expr := ⟨fun e => mulS (const (-1)) e⟩
instance : Zero Expr := ⟨const 0⟩
instance : One Expr := ⟨const 1⟩
instance : OfNat Expr 2 := ⟨const 2⟩

/-- Total numeric evaluation of an expression under an assignment of the
symbols, polymorphic in the scalar field and in the square-root routine
(instantiated with `ℝ` and `Real.sqrt` throughout the theorems; division by
zero follows the field's junk-value convention). -/
def evalWith {K : Type} [Field K] (sk : K → K) (env : Sym → K) : Expr → K
  | const q => (q : K)
  | var v => env v
  | add a b => evalWith sk env a + evalWith sk env b
  | mul a b => evalWith sk env a * evalWith sk env b
  | div a b => evalWith sk env a / evalWith sk env b
  | sqrt a => sk (evalWith sk env a)

/-- Partial numeric evaluation: `none` as soon as a division by zero or a
square root of a negative number occurs, modelling the error / non-finite
outcome of the floating-point evaluation of the Python code. -/
def evalOpt {K : Type} [LinearOrderedField K] [DecidableEq K] (sk : K → K)
    (env : Sym → K) : Expr → Option K
  | const q => some (q : K)
  | var v => some (env v)
  | add a b => do
    let x ← evalOpt sk env a
    let y ← evalOpt sk env b
    some (x + y)
  | mul a b => do
    let x ← evalOpt sk env a
    let y ← evalOpt sk env b
    some (x * y)
  | div a b => do
    let x ← evalOpt sk env a
    let y ← evalOpt sk env b
    if y = 0 then none else some (x / y)
  | sqrt a => do
    let x ← evalOpt sk env a
    if x < 0 then none else some (sk x)

/-- Exact symbolic differentiation with respect to one symbol, as sympy's
`diff`/`jacobian` performs it (with the automatic simplifications applied to
the resulting expression). -/
def derivE (t : Sym) : Expr → Expr
  | const _ => const 0
  | var v => const (if v = t then 1 else 0)
  | add a b => addS (derivE t a) (derivE t b)
  | mul a b => addS (mulS (derivE t a) b) (mulS a (derivE t b))
  | div a b =>
    divS (subS (mulS (derivE t a) b) (mulS a (derivE t b))) (mulS b b)
  | sqrt a => divS (derivE t a) (mulS (const 2) (sqrt a))

/-- String form of an expression under a symbol-naming function; models the
canonical printing `str(expr)` that the code generator applies to every
matrix entry. -/
def printWith (nm : Sym → String) : Expr → String
  | const q => intStr q
  | var v => nm v
  | add a b => printWith nm a ++ " + " ++ printWith nm b
  | mul a b => printWith nm a ++ "*" ++ printWith nm b
  | div a b => "(" ++ printWith nm a ++ ")/(" ++ printWith nm b ++ ")"
  | sqrt a => "sqrt(" ++ printWith nm a ++ ")"

/-- The printed form with the source's symbol names. -/
def printE : Expr → String := printWith Sym.name

/-- The code generator's emission test of line 231: an assignment statement is
written exactly when the printed entry is not the string `"0"`. -/
def emit (e : Expr) : Bool := printE e != "0"

section EvalLemmas

variable {K : Type} [Field K] (sk : K → K) (env : Sym → K)

@[simp] theorem evalWith_const (p : ℤ) : evalWith sk env (const p) = (p : K) := rfl

@[simp] theorem evalWith_var (v : Sym) : evalWith sk env (var v) = env v := rfl

@[simp] theorem evalWith_add (a b : Expr) :
    evalWith sk env (add a b) = evalWith sk env a + evalWith sk env b := rfl

@[simp] theorem evalWith_mul (a b : Expr) :
    evalWith sk env (mul a b) = evalWith sk env a * evalWith sk env b := rfl

@[simp] theorem evalWith_div (a b : Expr) :
    evalWith sk env (div a b) = evalWith sk env a / evalWith sk env b := rfl

@[simp] theorem evalWith_sqrt (a : Expr) :
    evalWith sk env (sqrt a) = sk (evalWith sk env a) := rfl

@[simp] theorem evalWith_addS (a b : Expr) :
    evalWith sk env (addS a b) = evalWith sk env a + evalWith sk env b := by
  unfold addS
  split
  · push_cast [evalWith]
    ring
  · split_ifs with h1 h2
    · simp [h1, evalWith]
    · simp [h2, evalWith]
    · rfl

@[simp] theorem evalWith_mulS (a b : Expr) :
    evalWith sk env (mulS a b) = evalWith sk env a * evalWith sk env b := by
  unfold mulS
  split
  · push_cast [evalWith]
    ring
  · split_ifs with h1 h2 h3
    · rcases h1 with h | h <;> simp [h, evalWith]
    · simp [h2, evalWith]
    · simp [h3, evalWith]
    · rfl

@[simp] theorem evalWith_divS (a b : Expr) :
    evalWith sk env (divS a b) = evalWith sk env a / evalWith sk env b := by
  unfold divS
  split_ifs with h1 h2
  · simp [h1, evalWith]
  · simp [h2, evalWith]
  · rfl

@[simp] theorem evalWith_subS (a b : Expr) :
    evalWith sk env (subS a b) = evalWith sk env a - evalWith sk env b := by
  unfold subS
  push_cast [evalWith_addS, evalWith_mulS, evalWith]
  ring

@[simp] theorem evalWith_hadd (a b : Expr) :
    evalWith sk env (a + b) = evalWith sk env a + evalWith sk env b :=
  evalWith_addS sk env a b

@[simp] theorem evalWith_hmul (a b : Expr) :
    evalWith sk env (a * b) = evalWith sk env a * evalWith sk env b :=
  evalWith_mulS sk env a b

@[simp] theorem evalWith_hsub (a b : Expr) :
    evalWith sk env (a - b) = evalWith sk env a - evalWith sk env b :=
  evalWith_subS sk env a b

@[simp] theorem evalWith_neg (a : Expr) :
    evalWith sk env (-a) = -evalWith sk env a := by
  show evalWith sk env (mulS (const (-1)) a) = _
  push_cast [evalWith_mulS, evalWith]
  ring

@[simp] theorem evalWith_zero : evalWith sk env 0 = 0 := by
  show evalWith sk env (const 0) = 0
  simp

@[simp] theorem evalWith_one : evalWith sk env 1 = 1 := by
  show evalWith sk env (const 1) = 1
  simp

@[simp] theorem evalWith_two : evalWith sk env 2 = 2 := by
  show evalWith sk env (const 2) = 2
  simp

end EvalLemmas

end Expr

/-- Shorthand for a symbol as an expression. -/
def X : Sym → Expr := Expr.var

section PrintZero

theorem natStrAux_zero (fuel : ℕ) : natStrAux fuel 0 = [] := by
  cases fuel <;> simp [natStrAux]

theorem natStrAux_ne_nil {fuel n : ℕ} (hn : n ≠ 0) (hf : fuel ≠ 0) :
    natStrAux fuel n ≠ [] := by
  cases fuel with
  | zero => exact absurd rfl hf
  | succ f => simp [natStrAux, hn]

theorem digitChar_ne_zeroChar : ∀ n : ℕ, n < 10 → n ≠ 0 → Nat.digitChar n ≠ '0' := by
  decide

theorem natStrAux_ne_single_zero {fuel n : ℕ} (hn : n ≠ 0) (hf : n ≤ fuel) :
    natStrAux fuel n ≠ ['0'] := by
  cases fuel with
  | zero => omega
  | succ f =>
    simp only [natStrAux, hn, if_false]
    rcases Nat.lt_or_ge n 10 with h10 | h10
    · have hdiv : n / 10 = 0 := Nat.div_eq_of_lt h10
      have hmod : n % 10 = n := Nat.mod_eq_of_lt h10
      rw [hdiv, natStrAux_zero, hmod, List.nil_append]
      intro h
      exact digitChar_ne_zeroChar n h10 hn (List.singleton_injective h)
    · have hne : natStrAux f (n / 10) ≠ [] := by
        apply natStrAux_ne_nil <;> omega
      have hpos := List.length_pos.mpr hne
      intro h
      have hlen := congrArg List.length h
      simp only [List.length_append, List.length_cons, List.length_nil] at hlen
      omega

theorem natStr_eq_zeroStr_iff (n : ℕ) : natStr n = "0" ↔ n = 0 := by
  constructor
  · intro h
    by_contra hn
    unfold natStr at h
    rw [if_neg hn] at h
    have hdata : natStrAux n n = ['0'] := by
      have := congrArg String.data h
      simpa using this
    exact natStrAux_ne_single_zero hn le_rfl hdata
  · rintro rfl
    rfl

theorem natStr_length_pos (n : ℕ) : 0 < (natStr n).length := by
  unfold natStr
  split_ifs with h
  · decide
  · exact List.length_pos.mpr (natStrAux_ne_nil h h)

theorem intStr_eq_zeroStr_iff (i : ℤ) : intStr i = "0" ↔ i = 0 := by
  unfold intStr
  split_ifs with h
  · constructor
    · intro hs
      have hlen := congrArg String.length hs
      rw [String.length_append] at hlen
      have h1 : ("-" : String).length = 1 := rfl
      have h2 : ("0" : String).length = 1 := rfl
      have h3 := natStr_length_pos i.natAbs
      omega
    · omega
  · rw [natStr_eq_zeroStr_iff]
    omega

theorem intStr_length_pos (i : ℤ) : 0 < (intStr i).length := by
  unfold intStr
  split_ifs with h
  · rw [String.length_append]
    have := natStr_length_pos i.natAbs
    omega
  · exact natStr_length_pos i.natAbs

theorem Sym.name_length_pos (v : Sym) : 0 < v.name.length := by
  cases v with
  | m => decide
  | s => decide
  | alpha => decide
  | g i => fin_cases i <;> decide
  | r i =>
    rw [show Sym.name (.r i) = "r" ++ natStr i from rfl, String.length_append]
    have := natStr_length_pos (i : ℕ)
    omega
  | v i =>
    rw [show Sym.name (.v i) = "v" ++ natStr i from rfl, String.length_append]
    have := natStr_length_pos (i : ℕ)
    omega
  | q i =>
    rw [show Sym.name (.q i) = "q" ++ natStr i from rfl, String.length_append]
    have := natStr_length_pos (i : ℕ)
    omega
  | w i =>
    rw [show Sym.name (.w i) = "w" ++ natStr i from rfl, String.length_append]
    have := natStr_length_pos (i : ℕ)
    omega
  | u i =>
    rw [show Sym.name (.u i) = "u" ++ natStr i from rfl, String.length_append]
    have := natStr_length_pos (i : ℕ)
    omega
  | rTB i =>
    rw [show Sym.name (.rTB i) = "rTB" ++ natStr i from rfl, String.length_append]
    have := natStr_length_pos (i : ℕ)
    omega
  | J i j =>
    rw [show Sym.name (.J i j) = "J" ++ natStr i ++ natStr j from rfl,
      String.length_append, String.length_append]
    have := natStr_length_pos (i : ℕ)
    omega

theorem Sym.name_ne_zeroStr (v : Sym) : v.name ≠ "0" := by
  have h0 : ("0" : String).length = 1 := rfl
  cases v with
  | m => decide
  | s => decide
  | alpha => decide
  | g i => fin_cases i <;> decide
  | r i =>
    intro h
    have hlen := congrArg String.length h
    rw [show Sym.name (.r i) = "r" ++ natStr i from rfl, String.length_append] at hlen
    have h1 : ("r" : String).length = 1 := rfl
    have h3 := natStr_length_pos (i : ℕ)
    omega
  | v i =>
    intro h
    have hlen := congrArg String.length h
    rw [show Sym.name (.v i) = "v" ++ natStr i from rfl, String.length_append] at hlen
    have h1 : ("v" : String).length = 1 := rfl
    have h3 := natStr_length_pos (i : ℕ)
    omega
  | q i =>
    intro h
    have hlen := congrArg String.length h
    rw [show Sym.name (.q i) = "q" ++ natStr i from rfl, String.length_append] at hlen
    have h1 : ("q" : String).length = 1 := rfl
    have h3 := natStr_length_pos (i : ℕ)
    omega
  | w i =>
    intro h
    have hlen := congrArg String.length h
    rw [show Sym.name (.w i) = "w" ++ natStr i from rfl, String.length_append] at hlen
    have h1 : ("w" : String).length = 1 := rfl
    have h3 := natStr_length_pos (i : ℕ)
    omega
  | u i =>
    intro h
    have hlen := congrArg String.length h
    rw [show Sym.name (.u i) = "u" ++ natStr i from rfl, String.length_append] at hlen
    have h1 : ("u" : String).length = 1 := rfl
    have h3 := natStr_length_pos (i : ℕ)
    omega
  | rTB i =>
    intro h
    have hlen := congrArg String.length h
    rw [show Sym.name (.rTB i) = "rTB" ++ natStr i from rfl, String.length_append] at hlen
    have h1 : ("rTB" : String).length = 3 := rfl
    have h3 := natStr_length_pos (i : ℕ)
    omega
  | J i j =>
    intro h
    have hlen := congrArg String.length h
    rw [show Sym.name (.J i j) = "J" ++ natStr i ++ natStr j from rfl,
      String.length_append, String.length_append] at hlen
    have h1 : ("J" : String).length = 1 := rfl
    have h2 := natStr_length_pos (i : ℕ)
    have h3 := natStr_length_pos (j : ℕ)
    omega

theorem printE_length_pos (e : Expr) : 0 < (Expr.printE e).length := by
  induction e with
  | const p => exact intStr_length_pos p
  | var v => exact Sym.name_length_pos v
  | add a b iha ihb =>
    show 0 < (Expr.printE a ++ " + " ++ Expr.printE b).length
    rw [String.length_append, String.length_append]
    omega
  | mul a b iha ihb =>
    show 0 < (Expr.printE a ++ "*" ++ Expr.printE b).length
    rw [String.length_append, String.length_append]
    omega
  | div a b iha ihb =>
    show 0 < ("(" ++ Expr.printE a ++ ")/(" ++ Expr.printE b ++ ")").length
    repeat rw [String.length_append]
    omega
  | sqrt a iha =>
    show 0 < ("sqrt(" ++ Expr.printE a ++ ")").length
    repeat rw [String.length_append]
    omega

/-- The printed form of an expression is the single character `0` exactly when
the expression is the literal zero: sympy's canonical printing, on which the
generator's sparsity test relies. -/
theorem printE_eq_zeroStr_iff (e : Expr) : Expr.printE e = "0" ↔ e = Expr.const 0 := by
  have h0 : ("0" : String).length = 1 := rfl
  cases e with
  | const p =>
    rw [show Expr.printE (Expr.const p) = intStr p from rfl, intStr_eq_zeroStr_iff]
    simp
  | var v =>
    constructor
    · intro h
      exact absurd h (Sym.name_ne_zeroStr v)
    · intro h
      exact absurd h (by simp)
  | add a b =>
    have ha := printE_length_pos a
    have hb := printE_length_pos b
    constructor
    · intro h
      have hlen := congrArg String.length h
      rw [show Expr.printE (Expr.add a b) = Expr.printE a ++ " + " ++ Expr.printE b from rfl,
        String.length_append, String.length_append] at hlen
      have h1 : (" + " : String).length = 3 := rfl
      omega
    · intro h
      exact absurd h (by simp)
  | mul a b =>
    have ha := printE_length_pos a
    have hb := printE_length_pos b
    constructor
    · intro h
      have hlen := congrArg String.length h
      rw [show Expr.printE (Expr.mul a b) = Expr.printE a ++ "*" ++ Expr.printE b from rfl,
        String.length_append, String.length_append] at hlen
      have h1 : ("*" : String).length = 1 := rfl
      omega
    · intro h
      exact absurd h (by simp)
  | div a b =>
    have ha := printE_length_pos a
    have hb := printE_length_pos b
    constructor
    · intro h
      have hlen := congrArg String.length h
      rw [show Expr.printE (Expr.div a b) =
        "(" ++ Expr.printE a ++ ")/(" ++ Expr.printE b ++ ")" from rfl] at hlen
      repeat rw [String.length_append] at hlen
      have h1 : ("(" : String).length = 1 := rfl
      have h2 : (")/(" : String).length = 3 := rfl
      have h3 : (")" : String).length = 1 := rfl
      omega
    · intro h
      exact absurd h (by simp)
  | sqrt a =>
    have ha := printE_length_pos a
    constructor
    · intro h
      have hlen := congrArg String.length h
      rw [show Expr.printE (Expr.sqrt a) = "sqrt(" ++ Expr.printE a ++ ")" from rfl] at hlen
      repeat rw [String.length_append] at hlen
      have h1 : ("sqrt(" : String).length = 5 := rfl
      have h2 : (")" : String).length = 1 := rfl
      omega
    · intro h
      exact absurd h (by simp)

/-- The generator emits an assignment for an entry exactly when the entry is
not the literal zero. -/
theorem emit_iff_ne_zero (e : Expr) : Expr.emit e = true ↔ e ≠ Expr.const 0 := by
  unfold Expr.emit
  rw [bne_iff_ne]
  exact not_congr (printE_eq_zeroStr_iff e)

end PrintZero

section Calculus

/-- Point update of an assignment of the symbols. -/
def upd (env : Sym → ℝ) (t : Sym) (x : ℝ) : Sym → ℝ :=
  fun v => if v = t then x else env v

@[simp] theorem upd_same (env : Sym → ℝ) (t : Sym) (x : ℝ) : upd env t x t = x := by
  simp [upd]

theorem upd_self (env : Sym → ℝ) (t : Sym) : upd env t (env t) = env := by
  funext v
  by_cases h : v = t <;> simp [upd, h]

/-- Regularity of an expression at an assignment: all denominators are
nonzero and all square-root arguments positive, recursively.  On this domain
the expression is differentiable and the symbolic derivative is exact. -/
def Smooth (env : Sym → ℝ) : Expr → Prop
  | .const _ => True
  | .var _ => True
  | .add a b => Smooth env a ∧ Smooth env b
  | .mul a b => Smooth env a ∧ Smooth env b
  | .div a b => Smooth env a ∧ Smooth env b ∧ Expr.evalWith Real.sqrt env b ≠ 0
  | .sqrt a => Smooth env a ∧ Expr.evalWith Real.sqrt env a ≠ 0

/-- Correctness of the symbolic differentiation: at any assignment where the
expression is regular, the numeric value of sympy's symbolic derivative with
respect to `t` is the true derivative of the numeric evaluation along the
coordinate `t`. -/
theorem hasDerivAt_evalWith (env : Sym → ℝ) (t : Sym) (e : Expr) (hs : Smooth env e) :
    HasDerivAt (fun x => Expr.evalWith Real.sqrt (upd env t x) e)
      (Expr.evalWith Real.sqrt env (Expr.derivE t e)) (env t) := by
  induction e with
  | const p =>
    simpa [Expr.derivE] using hasDerivAt_const (env t) ((p : ℝ))
  | var v =>
    by_cases h : v = t
    · subst h
      simp only [Expr.evalWith, Expr.derivE, upd_same, if_pos rfl]
      push_cast
      exact hasDerivAt_id (env v)
    · simp only [Expr.evalWith, Expr.derivE, if_neg h]
      push_cast
      simpa [upd, h] using hasDerivAt_const (env t) (env v)
  | add a b iha ihb =>
    have ha := iha hs.1
    have hb := ihb hs.2
    simpa [Expr.derivE] using ha.add hb
  | mul a b iha ihb =>
    have ha := iha hs.1
    have hb := ihb hs.2
    have := ha.mul hb
    simp only [upd_self] at this
    simpa [Expr.derivE] using this
  | div a b iha ihb =>
    have ha := iha hs.1
    have hb := ihb hs.2.1
    have hb0 : Expr.evalWith Real.sqrt (upd env t (env t)) b ≠ 0 := by
      rw [upd_self]
      exact hs.2.2
    have := ha.div hb (by simpa [upd_self] using hb0)
    simp only [upd_self] at this
    have hval : Expr.evalWith Real.sqrt env (Expr.derivE t (Expr.div a b)) =
        (Expr.evalWith Real.sqrt env (Expr.derivE t a) * Expr.evalWith Real.sqrt env b -
          Expr.evalWith Real.sqrt env a * Expr.evalWith Real.sqrt env (Expr.derivE t b)) /
          Expr.evalWith Real.sqrt env b ^ 2 := by
      simp [Expr.derivE]
      ring
    rw [hval]
    exact this
  | sqrt a iha =>
    have ha := iha hs.1
    have ha0 : Expr.evalWith Real.sqrt (upd env t (env t)) a ≠ 0 := by
      rw [upd_self]
      exact hs.2
    have := ha.sqrt (by simpa [upd_self] using ha0)
    simp only [upd_self] at this
    have hval : Expr.evalWith Real.sqrt env (Expr.derivE t (Expr.sqrt a)) =
        Expr.evalWith Real.sqrt env (Expr.derivE t a) /
          (2 * Real.sqrt (Expr.evalWith Real.sqrt env a)) := by
      simp [Expr.derivE]
    rw [hval]
    exact this

end Calculus

namespace Dynamics

/-- `Dynamics.Om(w)`: the 4x4 quaternion-rate matrix, entry for entry as
assigned in the source.  Polymorphic in the scalar type, as the source's
`numpy` flag selects a symbolic or a numeric matrix. -/
def Om {α : Type} [Zero α] [Neg α] (w : Fin 3 → α) : Matrix (Fin 4) (Fin 4) α :=
  !![0, -w 0, -w 1, -w 2;
     w 0, 0, w 2, -w 1;
     w 1, -w 2, 0, w 0;
     w 2, w 1, -w 0, 0]

/-- `Dynamics.cIB(q)`: the 3x3 body-to-inertial direction-cosine matrix,
entry for entry as assigned in the source.  Polymorphic in the scalar type,
as the source's `numpy` flag selects a symbolic or a numeric matrix. -/
def cIB {α : Type} [One α] [Add α] [Mul α] [Sub α] [OfNat α 2] (q : Fin 4 → α) :
    Matrix (Fin 3) (Fin 3) α :=
  !![1 - 2 * (q 2 * q 2 + q 3 * q 3), 2 * (q 1 * q 2 + q 0 * q 3), 2 * (q 1 * q 3 - q 0 * q 2);
     2 * (q 1 * q 2 - q 0 * q 3), 1 - 2 * (q 1 * q 1 + q 3 * q 3), 2 * (q 2 * q 3 + q 0 * q 1);
     2 * (q 1 * q 3 + q 0 * q 2), 2 * (q 2 * q 3 - q 0 * q 1), 1 - 2 * (q 1 * q 1 + q 2 * q 2)]

/-- The three-term dot product used when a 3x3 symbolic matrix multiplies a
3-vector (sympy expands the product into a sum of entry products). -/
def dot3 {α : Type} [Add α] [Mul α] (a b : Fin 3 → α) : α :=
  a 0 * b 0 + a 1 * b 1 + a 2 * b 2

/-- The four-term dot product for the 4x4 quaternion-rate product. -/
def dot4 {α : Type} [Add α] [Mul α] (a b : Fin 4 → α) : α :=
  a 0 * b 0 + a 1 * b 1 + a 2 * b 2 + a 3 * b 3

/-- The component formula of sympy's `Matrix.cross`. -/
def cross3 {α : Type} [Mul α] [Sub α] (a b : Fin 3 → α) : Fin 3 → α :=
  ![a 1 * b 2 - a 2 * b 1, a 2 * b 0 - a 0 * b 2, a 0 * b 1 - a 1 * b 0]

/-- The symbolic state vector `self.x` (order `m, r, v, q, w`). -/
def stateSym : Fin 14 → Sym :=
  ![.m, .r 0, .r 1, .r 2, .v 0, .v 1, .v 2, .q 0, .q 1, .q 2, .q 3, .w 0, .w 1, .w 2]

/-- `u_mag**2`: the argument of the control-magnitude square root
`sqrt(u0**2 + u1**2 + u2**2)`. -/
def uMagSq : Expr := X (.u 0) * X (.u 0) + X (.u 1) * X (.u 1) + X (.u 2) * X (.u 2)

/-- The symbolic quaternion, angular-velocity, control, thrust-offset and
gravity vectors. -/
def qE : Fin 4 → Expr := fun i => X (.q i)

def wE : Fin 3 → Expr := fun i => X (.w i)

def uE : Fin 3 → Expr := fun i => X (.u i)

def rTBE : Fin 3 → Expr := fun i => X (.rTB i)

/-- `J*w` for the symbolic diagonal inertia tensor built in lines 55-58
(off-diagonal entries are the literal zero, so sympy's product keeps only
the diagonal terms). -/
def JwE : Fin 3 → Expr := fun i => X (.J i i) * X (.w i)

/-- The torque `rTB x u - w x (J*w)` of line 76. -/
def torqueE : Fin 3 → Expr := fun i => cross3 rTBE uE i - cross3 wE JwE i

/-- The symbolic right-hand side `self.f` assembled in lines 64-76:
`f[0] = -alpha*||u||`, `f[1:4] = v`, `f[4:7] = (1/m)*cIB(q)*u + g`,
`f[7:11] = (1/2)*Om(w)*q`, `f[11:14] = J^+ (rTB x u - w x (J*w))`
(for the diagonal symbolic tensor the pseudo-inverse solve divides each
torque component by the matching diagonal entry). -/
def fM : Fin 14 → Expr :=
  ![-X .alpha * Expr.sqrt uMagSq,
    X (.v 0), X (.v 1), X (.v 2),
    dot3 (fun j => Expr.divS 1 (X .m) * cIB qE 0 j) uE + X (.g 0),
    dot3 (fun j => Expr.divS 1 (X .m) * cIB qE 1 j) uE + X (.g 1),
    dot3 (fun j => Expr.divS 1 (X .m) * cIB qE 2 j) uE + X (.g 2),
    Expr.divS 1 2 * dot4 (fun j => Om wE 0 j) qE,
    Expr.divS 1 2 * dot4 (fun j => Om wE 1 j) qE,
    Expr.divS 1 2 * dot4 (fun j => Om wE 2 j) qE,
    Expr.divS 1 2 * dot4 (fun j => Om wE 3 j) qE,
    Expr.divS (torqueE 0) (X (.J 0 0)),
    Expr.divS (torqueE 1) (X (.J 1 1)),
    Expr.divS (torqueE 2) (X (.J 2 2))]

/-- The state Jacobian `self.A = s * f.jacobian(x)` of line 78. -/
def AM : Fin 14 → Fin 14 → Expr := fun i j =>
  Expr.mulS (X .s) (Expr.derivE (stateSym j) (fM i))

/-- The control Jacobian `self.B = s * f.jacobian(u)` of line 79. -/
def BM : Fin 14 → Fin 3 → Expr := fun i j =>
  Expr.mulS (X .s) (Expr.derivE (.u j) (fM i))

end Dynamics

/-- Python's `str.replace` on character lists: scans left to right, replaces
non-overlapping occurrences, and continues after the matched text.  The first
argument is recursion fuel, adequate whenever `fuel ≥ length of the list`. -/
def replaceFuel (pat rep : List Char) : ℕ → List Char → List Char
  | 0, l => l
  | _ + 1, [] => []
  | fuel + 1, c :: cs =>
    if pat.isPrefixOf (c :: cs) then
      rep ++ replaceFuel pat rep fuel (List.drop (pat.length - 1) cs)
    else
      c :: replaceFuel pat rep fuel cs

/-- Python's `str.replace` on strings (for the nonempty patterns the source
uses). -/
def replaceStr (s pat rep : String) : String :=
  String.mk (replaceFuel pat.data rep.data s.data.length s.data)

namespace Dynamics

/-- The inertia-index rewrite of lines 243-249: for `i` and `j` ranging over
`0,1,2` (row-major), replace the substring `Jij` by `J[i,j]` in the emitted
line. -/
def rewriteJ (line : String) : String :=
  (List.range 3).foldl
    (fun acc i =>
      (List.range 3).foldl
        (fun acc2 j =>
          replaceStr acc2 ("J" ++ natStr i ++ natStr j)
            ("J[" ++ natStr i ++ "," ++ natStr j ++ "]"))
        acc)
    line

/-- Four spaces, the source's `tab`. -/
def tab : String := "    "

/-- The text `genline` built for a two-dimensional matrix entry in lines
233-241 (before the inertia rewrite): `tab + name + 'm[n, m]=' + str(value)`. -/
def genline2 (name : String) (n m : ℕ) (value : Expr) : String :=
  tab ++ name ++ "m" ++ "[" ++ natStr n ++ ", " ++ natStr m ++ "]=" ++ Expr.printE value

/-- The text `genline` built for an entry of the one-dimensional `f` in lines
233-241 (before the inertia rewrite): `tab + 'fm[n]=' + str(value)`. -/
def genline1 (n : ℕ) (value : Expr) : String :=
  tab ++ "f" ++ "m" ++ "[" ++ natStr n ++ "]=" ++ Expr.printE value

/-- The symbol names after the inertia rewrite: the diagonal scalars `Jij`
become indexed accesses `J[i,j]`; every other symbol keeps its name. -/
def nameIdx : Sym → String
  | .J i j => "J[" ++ natStr i ++ "," ++ natStr j ++ "]"
  | v => Sym.name v

end Dynamics

/-- A value a caller binds to a constant name: the scalar `alpha`, the
3-vectors `rTB`, `g`, or the 3x3 inertia tensor `J`. -/
inductive Val (K : Type) : Type
  | scalar : K → Val K
  | vec3 : (Fin 3 → K) → Val K
  | mat3 : Matrix (Fin 3) (Fin 3) K → Val K

/-- The numeric constants of a constants-mode `Dynamics` instance, as read by
the constructor in lines 44-47. -/
structure Consts (K : Type) : Type where
  alpha : K
  rTB : Fin 3 → K
  J : Matrix (Fin 3) (Fin 3) K
  g : Fin 3 → K

/-- Looking a name up in a Python mapping built from a key/value list: the
last binding of the name wins. -/
def lookupP {K : Type} (parms : List (String × Val K)) (name : String) : Option (Val K) :=
  (parms.reverse.find? (fun p => p.1 = name)).map Prod.snd

/-- Reading an attribute that is then used as a scalar. -/
def readScalar {K : Type} : Option (Val K) → Option K
  | some (.scalar x) => some x
  | _ => none

/-- Reading an attribute that is then unpacked into three components. -/
def readVec3 {K : Type} : Option (Val K) → Option (Fin 3 → K)
  | some (.vec3 v) => some v
  | _ => none

/-- Reading an attribute that is then indexed as a 3x3 matrix. -/
def readMat3 {K : Type} : Option (Val K) → Option (Matrix (Fin 3) (Fin 3) K)
  | some (.mat3 M) => some M
  | _ => none

/-- The numeric-constants-mode constructor of lines 44-47: it reads the
constants mapping under exactly the keys `alpha`, `rTB`, `J`, `g` and fails
(KeyError / shape error) if one is absent or of the wrong shape. -/
def mkConsts {K : Type} (parms : List (String × Val K)) : Option (Consts K) := do
  let a ← readScalar (lookupP parms "alpha")
  let r ← readVec3 (lookupP parms "rTB")
  let j ← readMat3 (lookupP parms "J")
  let g ← readVec3 (lookupP parms "g")
  some ⟨a, r, j, g⟩

namespace Dynamics

/-- The assignment of every symbol given numeric constants, a state vector,
a control vector and the scaling scalar (positional correspondence, matching
the substitution list of `Dynamics.get` and the unpacking order of the
generated module). -/
def envOf {K : Type} (C : Consts K) (x : Fin 14 → K) (u : Fin 3 → K) (s : K) : Sym → K
  | .m => x 0
  | .r i => x ⟨1 + i, by omega⟩
  | .v i => x ⟨4 + i, by omega⟩
  | .q i => x ⟨7 + i, by omega⟩
  | .w i => x ⟨11 + i, by omega⟩
  | .u i => u i
  | .s => s
  | .alpha => C.alpha
  | .rTB i => C.rTB i
  | .g i => C.g i
  | .J i j => C.J i j

/-- Reading the first `n` entries of a list, as the loop of `Dynamics.get`
indexes `xi[k]` for `k < n`: an IndexError (`none`) exactly when the list is
shorter than `n`; surplus entries are ignored. -/
def readVals {K : Type} (l : List K) (n : ℕ) : Option (Fin n → K) :=
  if h : n ≤ l.length then some (fun i => l.get ⟨i, lt_of_lt_of_le i.isLt h⟩) else none

/-- Python tuple unpacking `a0, ..., a(n-1) = l`: fails unless the length
matches exactly (as in the generated evaluators' first lines). -/
def unpackExact {K : Type} (l : List K) (n : ℕ) : Option (Fin n → K) :=
  if h : l.length = n then some (fun i => l.get ⟨i, h ▸ i.isLt⟩) else none

/-- `Dynamics.get('f', xi, ui, si)` in numeric-constants mode (lines
139-153): substitute the state symbols positionally from `xi`, the control
symbols from `ui` and `s` from `si`, and evaluate the matrix `self.f`. -/
def getf {K : Type} [Field K] (sk : K → K) (C : Consts K) (xi ui : List K) (si : K) :
    Option (Fin 14 → K) := do
  let xs ← readVals xi 14
  let us ← readVals ui 3
  some (fun i => Expr.evalWith sk (envOf C xs us si) (fM i))

/-- `Dynamics.get('A', xi, ui, si)` in numeric-constants mode. -/
def getA {K : Type} [Field K] (sk : K → K) (C : Consts K) (xi ui : List K) (si : K) :
    Option (Fin 14 → Fin 14 → K) := do
  let xs ← readVals xi 14
  let us ← readVals ui 3
  some (fun i j => Expr.evalWith sk (envOf C xs us si) (AM i j))

/-- `Dynamics.get('B', xi, ui, si)` in numeric-constants mode. -/
def getB {K : Type} [Field K] (sk : K → K) (C : Consts K) (xi ui : List K) (si : K) :
    Option (Fin 14 → Fin 3 → K) := do
  let xs ← readVals xi 14
  let us ← readVals ui 3
  some (fun i j => Expr.evalWith sk (envOf C xs us si) (BM i j))

/-- Reading the constants back inside a generated evaluator (lines 200-205 of
the generator, executed by the generated module): `J = self.J`,
`alpha = self.alpha`, `gx, gy, gz = self.g_I`, `rTB0, rTB1, rTB2 = self.rTB`,
where the attributes are whatever `set_parameters` stored from its key/value
mapping.  Fails (AttributeError / unpack error) when a name is unbound or of
the wrong shape. -/
def genConsts {K : Type} (parms : List (String × Val K)) : Option (Consts K) := do
  let j ← readMat3 (lookupP parms "J")
  let a ← readScalar (lookupP parms "alpha")
  let g ← readVec3 (lookupP parms "g_I")
  let r ← readVec3 (lookupP parms "rTB")
  some ⟨a, r, j, g⟩

/-- The generated `f(x, u)` evaluator: unpack `x` into the 14 state scalars
and `u` into the 3 control scalars (exact lengths), read the constants back
from the configured attributes, then fill a pre-zeroed array, assigning only
the entries the generator emitted.  The generated `f` does not take `s`, and
`self.f` does not contain the symbol `s`; the binding `0` for `s` below is
arbitrary. -/
def genf {K : Type} [Field K] (sk : K → K) (parms : List (String × Val K))
    (x u : List K) : Option (Fin 14 → K) := do
  let xs ← unpackExact x 14
  let us ← unpackExact u 3
  let C ← genConsts parms
  some (fun i => if Expr.emit (fM i) then Expr.evalWith sk (envOf C xs us 0) (fM i) else 0)

/-- The generated `A(x, u, s)` evaluator. -/
def genA {K : Type} [Field K] (sk : K → K) (parms : List (String × Val K))
    (x u : List K) (s : K) : Option (Fin 14 → Fin 14 → K) := do
  let xs ← unpackExact x 14
  let us ← unpackExact u 3
  let C ← genConsts parms
  some (fun i j => if Expr.emit (AM i j) then Expr.evalWith sk (envOf C xs us s) (AM i j) else 0)

/-- The generated `B(x, u, s)` evaluator. -/
def genB {K : Type} [Field K] (sk : K → K) (parms : List (String × Val K))
    (x u : List K) (s : K) : Option (Fin 14 → Fin 3 → K) := do
  let xs ← unpackExact x 14
  let us ← unpackExact u 3
  let C ← genConsts parms
  some (fun i j => if Expr.emit (BM i j) then Expr.evalWith sk (envOf C xs us s) (BM i j) else 0)

/-- The two state/control unpacking lines written into every generated
evaluator (lines 195-198). -/
def variablesUnpacking : List String :=
  ["m, r0, r1, r2, v0, v1, v2, q0, q1, q2, q3, w0, w1, w2 = x",
   "u0, u1, u2 = u"]

/-- The four constant-reading lines written into every generated evaluator
(lines 200-205). -/
def constantsUnpacking : List String :=
  ["J = self.J",
   "alpha = self.alpha",
   "gx, gy, gz = self.g_I",
   "rTB0, rTB1, rTB2 = self.rTB"]

/-- The module prologue and the `set_parameters` method written in lines
163-181. -/
def moduleHeader : String :=
  "\x22\x22\x22 This was generated by dynamics_generation.py \x22\x22\x22" ++ "\n\n" ++
  "from numpy " ++ "import sqrt" ++ "\n" ++
  "import numpy as np" ++ "\n\n" ++
  "class Dynamics:" ++ "\n\n" ++
  (tab ++ "def set_parameters(self, parms):" ++ "\n" ++
    tab ++ tab ++ "for name, val in parms.items():" ++ "\n" ++
    tab ++ tab ++ tab ++ "setattr(self, name, val)") ++ "\n"

/-- The signature line and unpacking block of one generated evaluator
(lines 183-215): `f` takes `(self, x, u)`, the Jacobians `(self, x, u, s)`. -/
def funcPrologue (name : String) : String :=
  (if name ≠ "f" then "\n" ++ tab ++ "def " ++ name ++ "(self, x, u, s):" ++ "\n"
   else "\n" ++ tab ++ "def " ++ name ++ "(self, x, u):" ++ "\n") ++
  String.join (variablesUnpacking.map (fun v => tab ++ tab ++ v ++ "\n")) ++
  "\n" ++
  String.join (constantsUnpacking.map (fun c => tab ++ tab ++ c ++ "\n")) ++
  "\n" ++ tab

/-- One emitted (or skipped) assignment for a two-dimensional matrix entry
(lines 226-251): nothing when the printed entry is `"0"`, otherwise the
rewritten `genline`. -/
def emitEntry2 (name : String) (n m : ℕ) (e : Expr) : String :=
  if Expr.emit e then tab ++ rewriteJ (genline2 name n m e) ++ "\n" else ""

/-- One emitted (or skipped) assignment for an entry of the one-dimensional
`f`. -/
def emitEntry1 (n : ℕ) (e : Expr) : String :=
  if Expr.emit e then tab ++ rewriteJ (genline1 n e) ++ "\n" else ""

/-- The full text of one generated two-dimensional evaluator: prologue,
pre-zeroed array, row-major emitted assignments, return. -/
def emitFunction2 (name : String) (rows cols : ℕ) (shape : String)
    (M : Fin rows → Fin cols → Expr) : String :=
  funcPrologue name ++
  (tab ++ name ++ "m" ++ " = np.zeros(" ++ shape ++ ")\n") ++
  String.join ((List.finRange rows).map (fun n =>
    String.join ((List.finRange cols).map (fun m => emitEntry2 name n.val m.val (M n m))))) ++
  (tab ++ tab ++ "return " ++ name ++ "m" ++ "\n")

/-- The full text of the generated `f` evaluator. -/
def emitFunctionF (f : Fin 14 → Expr) : String :=
  funcPrologue "f" ++
  (tab ++ "f" ++ "m" ++ " = np.zeros((14,))\n") ++
  String.join ((List.finRange 14).map (fun n => emitEntry1 n.val (f n))) ++
  (tab ++ tab ++ "return " ++ "f" ++ "m" ++ "\n")

/-- `Dynamics.generate_functions` (lines 155-255): the complete text of the
generated module, for the three matrices iterated in the fixed insertion
order `A`, `B`, `f` of the `functions` dict of line 159, each emitted
row-major. -/
def generate_functions (A : Fin 14 → Fin 14 → Expr) (B : Fin 14 → Fin 3 → Expr)
    (f : Fin 14 → Expr) : String :=
  moduleHeader ++
  emitFunction2 "A" 14 14 "(14, 14)" A ++
  emitFunction2 "B" 14 3 "(14, 3)" B ++
  emitFunctionF f

end Dynamics

/-- The Moore-Penrose pseudo-inverse of a diagonal 3x3 matrix: invert the
nonzero diagonal entries (the junk value `0⁻¹ = 0` makes this the honest
pseudo-inverse also for a singular diagonal tensor). -/
def pinvDiag {K : Type} [Field K] (d : Fin 3 → K) : Matrix (Fin 3) (Fin 3) K :=
  Matrix.diagonal (fun i => (d i)⁻¹)

/-- `pinvDiag` satisfies the defining Penrose identities for the diagonal
tensor, justifying its reading as the pseudo-inverse. -/
theorem pinvDiag_penrose {K : Type} [Field K] (d : Fin 3 → K) :
    Matrix.diagonal d * pinvDiag d * Matrix.diagonal d = Matrix.diagonal d ∧
    pinvDiag d * Matrix.diagonal d * pinvDiag d = pinvDiag d := by
  constructor <;>
  · ext i j
    by_cases h : i = j
    · subst h
      by_cases h0 : d i = 0 <;>
        simp [pinvDiag, Matrix.diagonal_mul_diagonal, Matrix.diagonal_apply_eq, h0]
    · simp [pinvDiag, Matrix.diagonal_mul_diagonal, Matrix.diagonal_apply_ne, h]

section RoundTripHelpers

/-- Whether a symbol occurs in an expression. -/
def Expr.occursB (t : Sym) : Expr → Bool
  | .const _ => false
  | .var v => v = t
  | .add a b => Expr.occursB t a || Expr.occursB t b
  | .mul a b => Expr.occursB t a || Expr.occursB t b
  | .div a b => Expr.occursB t a || Expr.occursB t b
  | .sqrt a => Expr.occursB t a

/-- Evaluation only depends on the symbols that occur in the expression. -/
theorem evalWith_congr {K : Type} [Field K] (sk : K → K) (env1 env2 : Sym → K)
    (e : Expr) (h : ∀ t, Expr.occursB t e = true → env1 t = env2 t) :
    Expr.evalWith sk env1 e = Expr.evalWith sk env2 e := by
  induction e with
  | const p => rfl
  | var v =>
    exact h v (by simp [Expr.occursB])
  | add a b iha ihb =>
    simp only [Expr.evalWith_add]
    rw [iha (fun t ht => h t (by simp [Expr.occursB, ht])),
      ihb (fun t ht => h t (by simp [Expr.occursB, ht]))]
  | mul a b iha ihb =>
    simp only [Expr.evalWith_mul]
    rw [iha (fun t ht => h t (by simp [Expr.occursB, ht])),
      ihb (fun t ht => h t (by simp [Expr.occursB, ht]))]
  | div a b iha ihb =>
    simp only [Expr.evalWith_div]
    rw [iha (fun t ht => h t (by simp [Expr.occursB, ht])),
      ihb (fun t ht => h t (by simp [Expr.occursB, ht]))]
  | sqrt a iha =>
    simp only [Expr.evalWith_sqrt]
    rw [iha (fun t ht => h t (by simp [Expr.occursB, ht]))]

/-- The scaling symbol `s` occurs in no entry of `f` (the generated `f`
evaluator correspondingly takes no `s` argument). -/
theorem fM_no_s : ∀ i : Fin 14, Expr.occursB Sym.s (Dynamics.fM i) = false := by
  decide

/-- Two assignments that differ only in the scaling slot agree on `f`. -/
theorem evalWith_fM_s_irrelevant {K : Type} [Field K] (sk : K → K) (C : Consts K)
    (xs : Fin 14 → K) (us : Fin 3 → K) (s1 s2 : K) (i : Fin 14) :
    Expr.evalWith sk (Dynamics.envOf C xs us s1) (Dynamics.fM i) =
      Expr.evalWith sk (Dynamics.envOf C xs us s2) (Dynamics.fM i) := by
  apply evalWith_congr
  intro t ht
  cases t with
  | s => rw [fM_no_s i] at ht; cases ht
  | _ => rfl

/-- A skipped entry is the literal zero, hence its pre-zeroed slot already
holds its value: the generated evaluator computes exactly the full matrix. -/
theorem skip_eval_eq {K : Type} [Field K] (sk : K → K) (env : Sym → K) (e : Expr) :
    (if Expr.emit e then Expr.evalWith sk env e else 0) = Expr.evalWith sk env e := by
  by_cases h : Expr.emit e = true
  · rw [if_pos h]
  · have h0 : e = Expr.const 0 := by
      by_contra hne
      exact h ((emit_iff_ne_zero e).mpr hne)
    rw [h0]
    simp [Expr.emit, Expr.printE, Expr.printWith, intStr, natStr]

/-- Exact unpacking of a vector serialized with `List.ofFn`. -/
theorem unpackExact_ofFn {K : Type} {n : ℕ} (x : Fin n → K) :
    Dynamics.unpackExact (List.ofFn x) n = some x := by
  unfold Dynamics.unpackExact
  rw [dif_pos (List.length_ofFn x)]
  congr 1
  funext i
  rw [List.get_ofFn]
  exact congrArg x (Fin.ext rfl)

/-- Reading back a vector serialized with `List.ofFn`. -/
theorem readVals_ofFn {K : Type} {n : ℕ} (x : Fin n → K) :
    Dynamics.readVals (List.ofFn x) n = some x := by
  unfold Dynamics.readVals
  rw [dif_pos (le_of_eq (List.length_ofFn x).symm)]
  congr 1
  funext i
  rw [List.get_ofFn]
  exact congrArg x (Fin.ext rfl)

end RoundTripHelpers

section Claims

/-- C8: for a unit quaternion `q` the body-to-inertial matrix is orthogonal
(`cIB(q) * cIB(q)ᵀ = I`), at the identity quaternion `(1,0,0,0)` it is
exactly the identity, and the function performs no normalization of its
input: the non-unit quaternion `(0,2,0,0)` yields a non-orthogonal matrix
(a normalizing implementation would return a rotation there too). -/
theorem cIB_orthogonal (q : Fin 4 → ℝ)
    (h : q 0 ^ 2 + q 1 ^ 2 + q 2 ^ 2 + q 3 ^ 2 = 1) :
    Dynamics.cIB q * (Dynamics.cIB q).transpose = 1 ∧
    Dynamics.cIB (![1, 0, 0, 0] : Fin 4 → ℝ) = 1 ∧
    Dynamics.cIB (![0, 2, 0, 0] : Fin 4 → ℝ) *
      (Dynamics.cIB (![0, 2, 0, 0] : Fin 4 → ℝ)).transpose ≠ 1 := by
  refine ⟨?_, ?_, ?_⟩
  · ext i j
    rw [Matrix.mul_apply,
      show (1 : Matrix (Fin 3) (Fin 3) ℝ) i j = if i = j then 1 else 0 from Matrix.one_apply]
    fin_cases i <;> fin_cases j <;>
      simp [Fin.sum_univ_three, Dynamics.cIB, Matrix.transpose_apply]
    · linear_combination (4 * (q 2 * q 2 + q 3 * q 3)) * h
    · linear_combination (-4 * q 1 * q 2) * h
    · linear_combination (-4 * q 1 * q 3) * h
    · linear_combination (-4 * q 1 * q 2) * h
    · linear_combination (4 * (q 1 * q 1 + q 3 * q 3)) * h
    · linear_combination (-4 * q 2 * q 3) * h
    · linear_combination (-4 * q 1 * q 3) * h
    · linear_combination (-4 * q 2 * q 3) * h
    · linear_combination (4 * (q 1 * q 1 + q 2 * q 2)) * h
  · ext i j
    fin_cases i <;> fin_cases j <;>
      simp [Dynamics.cIB, Matrix.one_apply, Matrix.vecHead, Matrix.vecTail]
  · intro heq
    have h11 := congrFun (congrFun heq 1) 1
    rw [Matrix.mul_apply] at h11
    simp [Fin.sum_univ_three, Dynamics.cIB, Matrix.transpose_apply, Matrix.one_apply] at h11
    norm_num at h11

/-- C2: the assembled right-hand side `f` has exactly 14 entries, with
`f[0] = -alpha*‖u‖₂` (Euclidean norm of the control), `f[1:4] = v`,
`f[4:7] = (1/m)*cIB(q)*u + g`, `f[7:11] = (1/2)*Om(w)*q`, and `f[11:14]` the
pseudo-inverse of the (diagonal) inertia tensor applied to
`rTB x u - w x (J*w)`. -/
theorem f_assembly (env : Sym → ℝ) :
    let ev := Expr.evalWith Real.sqrt env
    let uv : Fin 3 → ℝ := fun i => env (Sym.u i)
    let qv : Fin 4 → ℝ := fun i => env (Sym.q i)
    let wv : Fin 3 → ℝ := fun i => env (Sym.w i)
    let rv : Fin 3 → ℝ := fun i => env (Sym.rTB i)
    let Jd : Fin 3 → ℝ := fun i => env (Sym.J i i)
    ev (Dynamics.fM 0) = -env Sym.alpha * ‖(WithLp.equiv 2 (Fin 3 → ℝ)).symm uv‖ ∧
    (∀ k : Fin 3, ev (Dynamics.fM ⟨1 + k.val, by omega⟩) = env (Sym.v k)) ∧
    (∀ k : Fin 3, ev (Dynamics.fM ⟨4 + k.val, by omega⟩) =
      (1 / env Sym.m) * (Dynamics.cIB qv).mulVec uv k + env (Sym.g k)) ∧
    (∀ k : Fin 4, ev (Dynamics.fM ⟨7 + k.val, by omega⟩) =
      (1 / 2) * (Dynamics.Om wv).mulVec qv k) ∧
    (∀ k : Fin 3, ev (Dynamics.fM ⟨11 + k.val, by omega⟩) =
      (pinvDiag Jd).mulVec
        (crossProduct rv uv -
          crossProduct wv ((Matrix.diagonal Jd).mulVec wv)) k) := by
  intro ev uv qv wv rv Jd
  refine ⟨?_, ?_, ?_, ?_, ?_⟩
  · show Expr.evalWith Real.sqrt env (Dynamics.fM 0) = _
    rw [EuclideanSpace.norm_eq]
    rw [show Dynamics.fM 0 = -X Sym.alpha * Expr.sqrt Dynamics.uMagSq from rfl]
    simp [Dynamics.uMagSq, X, Real.norm_eq_abs, sq_abs, Fin.sum_univ_three]
    rw [show uv 0 ^ 2 + uv 1 ^ 2 + uv 2 ^ 2 =
      env (Sym.u 0) * env (Sym.u 0) + env (Sym.u 1) * env (Sym.u 1) +
        env (Sym.u 2) * env (Sym.u 2) from by simp [uv]; ring]
    exact Or.inl rfl
  · intro k
    fin_cases k <;> exact rfl
  · intro k
    fin_cases k
    · show Expr.evalWith Real.sqrt env
        (Dynamics.dot3 (fun j => Expr.divS 1 (X Sym.m) * Dynamics.cIB Dynamics.qE 0 j)
          Dynamics.uE + X (Sym.g 0)) = _
      simp [Dynamics.dot3, Dynamics.cIB, Dynamics.qE, Dynamics.uE, X,
        Matrix.mulVec, Matrix.dotProduct, Fin.sum_univ_three, uv, qv]
      ring
    · show Expr.evalWith Real.sqrt env
        (Dynamics.dot3 (fun j => Expr.divS 1 (X Sym.m) * Dynamics.cIB Dynamics.qE 1 j)
          Dynamics.uE + X (Sym.g 1)) = _
      simp [Dynamics.dot3, Dynamics.cIB, Dynamics.qE, Dynamics.uE, X,
        Matrix.mulVec, Matrix.dotProduct, Fin.sum_univ_three, uv, qv]
      ring
    · show Expr.evalWith Real.sqrt env
        (Dynamics.dot3 (fun j => Expr.divS 1 (X Sym.m) * Dynamics.cIB Dynamics.qE 2 j)
          Dynamics.uE + X (Sym.g 2)) = _
      simp [Dynamics.dot3, Dynamics.cIB, Dynamics.qE, Dynamics.uE, X,
        Matrix.mulVec, Matrix.dotProduct, Fin.sum_univ_three, uv, qv]
      ring
  · intro k
    fin_cases k
    · show Expr.evalWith Real.sqrt env
        (Expr.divS 1 2 * Dynamics.dot4 (fun j => Dynamics.Om Dynamics.wE 0 j) Dynamics.qE) = _
      simp [Dynamics.dot4, Dynamics.Om, Dynamics.qE, Dynamics.wE, X,
        Matrix.mulVec, Matrix.dotProduct, Fin.sum_univ_four, qv, wv]
    · show Expr.evalWith Real.sqrt env
        (Expr.divS 1 2 * Dynamics.dot4 (fun j => Dynamics.Om Dynamics.wE 1 j) Dynamics.qE) = _
      simp [Dynamics.dot4, Dynamics.Om, Dynamics.qE, Dynamics.wE, X,
        Matrix.mulVec, Matrix.dotProduct, Fin.sum_univ_four, qv, wv]
    · show Expr.evalWith Real.sqrt env
        (Expr.divS 1 2 * Dynamics.dot4 (fun j => Dynamics.Om Dynamics.wE 2 j) Dynamics.qE) = _
      simp [Dynamics.dot4, Dynamics.Om, Dynamics.qE, Dynamics.wE, X,
        Matrix.mulVec, Matrix.dotProduct, Fin.sum_univ_four, qv, wv]
    · show Expr.evalWith Real.sqrt env
        (Expr.divS 1 2 * Dynamics.dot4 (fun j => Dynamics.Om Dynamics.wE 3 j) Dynamics.qE) = _
      simp [Dynamics.dot4, Dynamics.Om, Dynamics.qE, Dynamics.wE, X,
        Matrix.mulVec, Matrix.dotProduct, Fin.sum_univ_four, qv, wv]
  · intro k
    fin_cases k
    · show Expr.evalWith Real.sqrt env
        (Expr.divS (Dynamics.torqueE 0) (X (Sym.J 0 0))) = _
      simp [Dynamics.torqueE, Dynamics.cross3, Dynamics.rTBE, Dynamics.uE, Dynamics.wE,
        Dynamics.JwE, X, pinvDiag, Matrix.mulVec_diagonal, cross_apply, Pi.sub_apply,
        uv, wv, rv, Jd]
      ring
    · show Expr.evalWith Real.sqrt env
        (Expr.divS (Dynamics.torqueE 1) (X (Sym.J 1 1))) = _
      simp [Dynamics.torqueE, Dynamics.cross3, Dynamics.rTBE, Dynamics.uE, Dynamics.wE,
        Dynamics.JwE, X, pinvDiag, Matrix.mulVec_diagonal, cross_apply, Pi.sub_apply,
        uv, wv, rv, Jd]
      ring
    · show Expr.evalWith Real.sqrt env
        (Expr.divS (Dynamics.torqueE 2) (X (Sym.J 2 2))) = _
      simp [Dynamics.torqueE, Dynamics.cross3, Dynamics.rTBE, Dynamics.uE, Dynamics.wE,
        Dynamics.JwE, X, pinvDiag, Matrix.mulVec_diagonal, cross_apply, Pi.sub_apply,
        uv, wv, rv, Jd]
      ring

/-- At an assignment with nonzero mass, nonzero inertia diagonal and nonzero
control magnitude, every entry of the assembled `f` is regular. -/
theorem smooth_fM (env : Sym → ℝ) (hm : env Sym.m ≠ 0)
    (hJ : ∀ k : Fin 3, env (Sym.J k k) ≠ 0)
    (hu : Expr.evalWith Real.sqrt env Dynamics.uMagSq ≠ 0) :
    ∀ i : Fin 14, Smooth env (Dynamics.fM i) := by
  have hJ0 := hJ 0
  have hJ1 := hJ 1
  have hJ2 := hJ 2
  have hu' : env (Sym.u 0) * env (Sym.u 0) + env (Sym.u 1) * env (Sym.u 1) +
      env (Sym.u 2) * env (Sym.u 2) ≠ 0 := by
    simpa [Dynamics.uMagSq, X] using hu
  intro i
  fin_cases i <;>
    simp [Dynamics.fM, Dynamics.dot3, Dynamics.dot4, Dynamics.cIB, Dynamics.Om,
      Dynamics.torqueE, Dynamics.cross3, Dynamics.qE, Dynamics.uE, Dynamics.wE,
      Dynamics.rTBE, Dynamics.JwE, Dynamics.uMagSq, X, Expr.addS, Expr.mulS, Expr.divS,
      Expr.subS, Smooth, hm, hu', hJ0, hJ1, hJ2]

/-- C3: the state Jacobian `A` is `s` times the exact partial derivative of
`f` with respect to the state symbols (in the fixed order
`m, r0..r2, v0..v2, q0..q3, w0..w2`), of shape 14x14, and the control
Jacobian `B` is `s` times the exact partial derivative of `f` with respect to
`u0..u2`, of shape 14x3 — exact differentiation (Mathlib's `deriv` of the
evaluated dynamics along the corresponding coordinate), with no
finite-difference approximation. -/
theorem jacobians_exact (env : Sym → ℝ) (hm : env Sym.m ≠ 0)
    (hJ : ∀ k : Fin 3, env (Sym.J k k) ≠ 0)
    (hu : Expr.evalWith Real.sqrt env Dynamics.uMagSq ≠ 0) :
    (∀ (i : Fin 14) (j : Fin 14), Expr.evalWith Real.sqrt env (Dynamics.AM i j) =
      env Sym.s *
        deriv (fun t => Expr.evalWith Real.sqrt (upd env (Dynamics.stateSym j) t)
          (Dynamics.fM i)) (env (Dynamics.stateSym j))) ∧
    (∀ (i : Fin 14) (j : Fin 3), Expr.evalWith Real.sqrt env (Dynamics.BM i j) =
      env Sym.s *
        deriv (fun t => Expr.evalWith Real.sqrt (upd env (Sym.u j) t)
          (Dynamics.fM i)) (env (Sym.u j))) := by
  have hsm := smooth_fM env hm hJ hu
  constructor
  · intro i j
    have hd := hasDerivAt_evalWith env (Dynamics.stateSym j) (Dynamics.fM i) (hsm i)
    rw [hd.deriv]
    show Expr.evalWith Real.sqrt env
      (Expr.mulS (X Sym.s) (Expr.derivE (Dynamics.stateSym j) (Dynamics.fM i))) = _
    rw [Expr.evalWith_mulS]
    rfl
  · intro i j
    have hd := hasDerivAt_evalWith env (Sym.u j) (Dynamics.fM i) (hsm i)
    rw [hd.deriv]
    show Expr.evalWith Real.sqrt env
      (Expr.mulS (X Sym.s) (Expr.derivE (Sym.u j) (Dynamics.fM i))) = _
    rw [Expr.evalWith_mulS]
    rfl

/-- A concrete regular assignment: unit mass, unit control, unit inertia
diagonal, everything else zero. -/
def env0 : Sym → ℝ
  | .m => 1
  | .u _ => 1
  | .J _ _ => 1
  | _ => 0

/-- C3 witness: the theorem applied at the concrete assignment `env0`. -/
theorem jacobians_exact_witness :
    (env0 Sym.m ≠ 0) ∧ (∀ k : Fin 3, env0 (Sym.J k k) ≠ 0) ∧
    (Expr.evalWith Real.sqrt env0 Dynamics.uMagSq ≠ 0) ∧
    ((∀ (i : Fin 14) (j : Fin 14), Expr.evalWith Real.sqrt env0 (Dynamics.AM i j) =
      env0 Sym.s *
        deriv (fun t => Expr.evalWith Real.sqrt (upd env0 (Dynamics.stateSym j) t)
          (Dynamics.fM i)) (env0 (Dynamics.stateSym j))) ∧
    (∀ (i : Fin 14) (j : Fin 3), Expr.evalWith Real.sqrt env0 (Dynamics.BM i j) =
      env0 Sym.s *
        deriv (fun t => Expr.evalWith Real.sqrt (upd env0 (Sym.u j) t)
          (Dynamics.fM i)) (env0 (Sym.u j)))) :=
  ⟨by norm_num [env0], fun k => by norm_num [env0],
    by norm_num [Dynamics.uMagSq, X, env0],
    jacobians_exact env0 (by norm_num [env0]) (fun k => by norm_num [env0])
      (by norm_num [Dynamics.uMagSq, X, env0])⟩

/-- C10: at zero control input the control Jacobian `B` is not well-defined:
every entry of its mass-depletion row carries the factor `u_j/‖u‖` from
differentiating the control norm and its evaluation divides by zero (a
division-by-zero error / non-finite value, `none` in the partial evaluation
semantics), while all 14 entries of `f` itself evaluate fine at `u = 0`
(given nonzero mass and inertia diagonal, whose entries appear in
denominators of `f`). -/
theorem B_row0_undefined_at_zero_control (env : Sym → ℝ)
    (hu : ∀ i : Fin 3, env (Sym.u i) = 0) (hm : env Sym.m ≠ 0)
    (hJ : ∀ k : Fin 3, env (Sym.J k k) ≠ 0) :
    (∀ j : Fin 3, Expr.evalOpt Real.sqrt env (Dynamics.BM 0 j) = none) ∧
    (∀ i : Fin 14, (Expr.evalOpt Real.sqrt env (Dynamics.fM i)).isSome = true) := by
  have hJ0 := hJ 0
  have hJ1 := hJ 1
  have hJ2 := hJ 2
  constructor
  · have huMag : Dynamics.uMagSq = Expr.add
        (Expr.add (Expr.mul (Expr.var (Sym.u 0)) (Expr.var (Sym.u 0)))
          (Expr.mul (Expr.var (Sym.u 1)) (Expr.var (Sym.u 1))))
        (Expr.mul (Expr.var (Sym.u 2)) (Expr.var (Sym.u 2))) := by decide
    intro j
    fin_cases j
    · show Expr.evalOpt Real.sqrt env (Dynamics.BM 0 0) = none
      rw [show Dynamics.BM 0 0 = Expr.mul (Expr.var Sym.s)
        (Expr.mul (Expr.mul (Expr.const (-1)) (Expr.var Sym.alpha))
          (Expr.div (Expr.add (Expr.var (Sym.u 0)) (Expr.var (Sym.u 0)))
            (Expr.mul (Expr.const 2) (Expr.sqrt Dynamics.uMagSq)))) from by decide, huMag]
      simp [Expr.evalOpt, hu 0, hu 1, hu 2, Real.sqrt_zero]
    · show Expr.evalOpt Real.sqrt env (Dynamics.BM 0 1) = none
      rw [show Dynamics.BM 0 1 = Expr.mul (Expr.var Sym.s)
        (Expr.mul (Expr.mul (Expr.const (-1)) (Expr.var Sym.alpha))
          (Expr.div (Expr.add (Expr.var (Sym.u 1)) (Expr.var (Sym.u 1)))
            (Expr.mul (Expr.const 2) (Expr.sqrt Dynamics.uMagSq)))) from by decide, huMag]
      simp [Expr.evalOpt, hu 0, hu 1, hu 2, Real.sqrt_zero]
    · show Expr.evalOpt Real.sqrt env (Dynamics.BM 0 2) = none
      rw [show Dynamics.BM 0 2 = Expr.mul (Expr.var Sym.s)
        (Expr.mul (Expr.mul (Expr.const (-1)) (Expr.var Sym.alpha))
          (Expr.div (Expr.add (Expr.var (Sym.u 2)) (Expr.var (Sym.u 2)))
            (Expr.mul (Expr.const 2) (Expr.sqrt Dynamics.uMagSq)))) from by decide, huMag]
      simp [Expr.evalOpt, hu 0, hu 1, hu 2, Real.sqrt_zero]
  · intro i
    fin_cases i <;>
      simp [Dynamics.fM, Dynamics.dot3, Dynamics.dot4, Dynamics.cIB, Dynamics.Om,
        Dynamics.torqueE, Dynamics.cross3, Dynamics.qE, Dynamics.uE, Dynamics.wE,
        Dynamics.rTBE, Dynamics.JwE, Dynamics.uMagSq, X, Expr.addS, Expr.mulS, Expr.divS,
        Expr.subS, Expr.evalOpt, hm, hJ0, hJ1, hJ2, hu 0, hu 1, hu 2, Real.sqrt_zero]

/-- A concrete assignment with zero control: unit mass and inertia diagonal,
everything else zero. -/
def envZ : Sym → ℝ
  | .m => 1
  | .J _ _ => 1
  | _ => 0

/-- C10 witness: the theorem applied at the concrete assignment `envZ`. -/
theorem B_row0_undefined_witness :
    (∀ i : Fin 3, envZ (Sym.u i) = 0) ∧ (envZ Sym.m ≠ 0) ∧
    (∀ k : Fin 3, envZ (Sym.J k k) ≠ 0) ∧
    ((∀ j : Fin 3, Expr.evalOpt Real.sqrt envZ (Dynamics.BM 0 j) = none) ∧
      (∀ i : Fin 14, (Expr.evalOpt Real.sqrt envZ (Dynamics.fM i)).isSome = true)) :=
  ⟨fun i => by simp [envZ], by norm_num [envZ], fun k => by norm_num [envZ],
    B_row0_undefined_at_zero_control envZ (fun i => by simp [envZ])
      (by norm_num [envZ]) (fun k => by norm_num [envZ])⟩

/-- C8 witness: the theorem applied at the unit quaternion `(1,0,0,0)`. -/
theorem cIB_orthogonal_witness :
    ((![1, 0, 0, 0] : Fin 4 → ℝ) 0 ^ 2 + (![1, 0, 0, 0] : Fin 4 → ℝ) 1 ^ 2 +
        (![1, 0, 0, 0] : Fin 4 → ℝ) 2 ^ 2 + (![1, 0, 0, 0] : Fin 4 → ℝ) 3 ^ 2 = 1) ∧
    Dynamics.cIB (![1, 0, 0, 0] : Fin 4 → ℝ) *
      (Dynamics.cIB (![1, 0, 0, 0] : Fin 4 → ℝ)).transpose = 1 :=
  ⟨by norm_num, (cIB_orthogonal ![1, 0, 0, 0] (by norm_num)).1⟩

/-- C4: for every entry of the three matrices `f`, `A`, `B`, the generator
emits an assignment exactly when the entry is not the literal symbolic zero
(the emission test compares the printed entry against the string `"0"`, which
holds of exactly the literal zero — a symbolic-equality decision, not a
numeric threshold); hence every entry left unassigned in the pre-zeroed
output array is exactly symbolic zero. -/
theorem sparsity_emission_iff :
    (∀ (i j : Fin 14), Expr.emit (Dynamics.AM i j) = true ↔ Dynamics.AM i j ≠ Expr.const 0) ∧
    (∀ (i : Fin 14) (j : Fin 3),
      Expr.emit (Dynamics.BM i j) = true ↔ Dynamics.BM i j ≠ Expr.const 0) ∧
    (∀ i : Fin 14, Expr.emit (Dynamics.fM i) = true ↔ Dynamics.fM i ≠ Expr.const 0) :=
  ⟨fun _ _ => emit_iff_ne_zero _, fun _ _ => emit_iff_ne_zero _, fun _ => emit_iff_ne_zero _⟩

set_option maxRecDepth 10000 in
set_option maxHeartbeats 4000000 in
/-- C5: in every assignment line the generator builds for an entry of `A`,
`B` or `f`, the sequence of nine textual replacements `Jij -> J[i,j]` yields
exactly the line printed with the indexed inertia accesses substituted for
the scalar names `Jij` (complete two-character suffixes matched exactly) and
leaves every other substring of the line — the `name m[n, m]=` prefix and
all other tokens of the expression — unchanged. -/
theorem inertia_rewrite_sound :
    (∀ (n : Fin 14) (m : Fin 14),
      Dynamics.rewriteJ (Dynamics.genline2 "A" n.val m.val (Dynamics.AM n m)) =
        Dynamics.tab ++ "A" ++ "m" ++ "[" ++ natStr n.val ++ ", " ++ natStr m.val ++ "]=" ++
          Expr.printWith Dynamics.nameIdx (Dynamics.AM n m)) ∧
    (∀ (n : Fin 14) (m : Fin 3),
      Dynamics.rewriteJ (Dynamics.genline2 "B" n.val m.val (Dynamics.BM n m)) =
        Dynamics.tab ++ "B" ++ "m" ++ "[" ++ natStr n.val ++ ", " ++ natStr m.val ++ "]=" ++
          Expr.printWith Dynamics.nameIdx (Dynamics.BM n m)) ∧
    (∀ n : Fin 14,
      Dynamics.rewriteJ (Dynamics.genline1 n.val (Dynamics.fM n)) =
        Dynamics.tab ++ "f" ++ "m" ++ "[" ++ natStr n.val ++ "]=" ++
          Expr.printWith Dynamics.nameIdx (Dynamics.fM n)) :=
  ⟨by decide, by decide, by decide⟩

/-- C9: code generation is deterministic and depends only on the entry values
of the three symbolic matrices: any two triples of matrices that agree
entrywise produce byte-identical generated source, the matrices being
emitted in the fixed matrix-then-entry, row-major order of
`generate_functions`. -/
theorem codegen_deterministic (A1 A2 : Fin 14 → Fin 14 → Expr)
    (B1 B2 : Fin 14 → Fin 3 → Expr) (f1 f2 : Fin 14 → Expr)
    (hA : ∀ n m, A1 n m = A2 n m) (hB : ∀ n m, B1 n m = B2 n m)
    (hf : ∀ n, f1 n = f2 n) :
    Dynamics.generate_functions A1 B1 f1 = Dynamics.generate_functions A2 B2 f2 := by
  have hA' : A1 = A2 := funext fun n => funext fun m => hA n m
  have hB' : B1 = B2 := funext fun n => funext fun m => hB n m
  have hf' : f1 = f2 := funext fun n => hf n
  rw [hA', hB', hf']

/-- C9 witness: the theorem applied to the program's own three matrices. -/
theorem codegen_deterministic_witness :
    Dynamics.generate_functions Dynamics.AM Dynamics.BM Dynamics.fM =
      Dynamics.generate_functions Dynamics.AM Dynamics.BM Dynamics.fM :=
  codegen_deterministic Dynamics.AM Dynamics.AM Dynamics.BM Dynamics.BM Dynamics.fM
    Dynamics.fM (fun _ _ => rfl) (fun _ _ => rfl) (fun _ => rfl)

/-- C7 (amended): the slow-path evaluator indexes the first 14 entries of the
state and the first 3 entries of the control, so it fails with an index error
exactly when a vector is too short; a longer vector is silently accepted and
its surplus entries are ignored (contrary to the claim, a 15-entry state does
not fail). -/
theorem get_dimension_check (C : Consts ℝ) (xi ui : List ℝ) (si : ℝ) :
    ((Dynamics.getf Real.sqrt C xi ui si).isSome = true ↔
      14 ≤ xi.length ∧ 3 ≤ ui.length) ∧
    ((Dynamics.getA Real.sqrt C xi ui si).isSome = true ↔
      14 ≤ xi.length ∧ 3 ≤ ui.length) ∧
    ((Dynamics.getB Real.sqrt C xi ui si).isSome = true ↔
      14 ≤ xi.length ∧ 3 ≤ ui.length) := by
  refine ⟨?_, ?_, ?_⟩ <;>
  · simp only [Dynamics.getf, Dynamics.getA, Dynamics.getB, Dynamics.readVals]
    split_ifs with h1 h2 <;> simp_all

/-- C7 counterexample: a 15-entry state vector (with a well-formed control)
does not produce a dimension error — evaluation succeeds, refuting the
too-long half of the claim. -/
theorem get_dimension_check_cex :
    (Dynamics.getf Real.sqrt
      ⟨(2 : ℝ), (fun _ => 2), (fun _ _ => 2), (fun _ => 2)⟩
      (List.replicate 15 (2 : ℝ)) [2, 2, 2] 2).isSome = true := by
  rfl

/-- C1 counterexample: the round trip fails for the constants mapping with
exactly the contract keys `alpha, rTB, J, g`: the numeric-constants-mode
constructor accepts it and the slow-path evaluator returns values, but the
generated module configured with the same mapping fails (its evaluators read
the gravity vector back under the attribute name `g_I`, which the mapping
does not bind), so it does not return the same values — it returns nothing. -/
theorem roundtrip_cex :
    Dynamics.genf Real.sqrt
        [("alpha", Val.scalar (1 : ℝ)), ("rTB", Val.vec3 ![1, 0, 0]),
          ("J", Val.mat3 (Matrix.diagonal ![1, 1, 1])), ("g", Val.vec3 ![0, 0, 1])]
        (List.replicate 14 (1 : ℝ)) (List.replicate 3 (1 : ℝ)) = none ∧
    (mkConsts
        [("alpha", Val.scalar (1 : ℝ)), ("rTB", Val.vec3 ![1, 0, 0]),
          ("J", Val.mat3 (Matrix.diagonal ![1, 1, 1])), ("g", Val.vec3 ![0, 0, 1])]).isSome
      = true ∧
    ((mkConsts
        [("alpha", Val.scalar (1 : ℝ)), ("rTB", Val.vec3 ![1, 0, 0]),
          ("J", Val.mat3 (Matrix.diagonal ![1, 1, 1])), ("g", Val.vec3 ![0, 0, 1])]).bind
      (fun C => Dynamics.getf Real.sqrt C
        (List.replicate 14 (1 : ℝ)) (List.replicate 3 (1 : ℝ)) 1)).isSome = true :=
  ⟨rfl, rfl, rfl⟩

/-- C1 (amended): for every constants mapping that binds `alpha`, `rTB`, a
diagonal `J` and the gravity vector under both names `g` (read by the
numeric-constants-mode constructor) and `g_I` (read by the generated
evaluators), and every state/control/scaling values, the generated module
returns exactly the same numeric values as the slow-path evaluator of the
numeric-constants-mode instance built from the same mapping (exact equality,
hence within any tolerance). -/
theorem roundtrip_amended (α : ℝ) (r g d : Fin 3 → ℝ) (x : Fin 14 → ℝ)
    (u : Fin 3 → ℝ) (s : ℝ) :
    mkConsts [("alpha", Val.scalar α), ("rTB", Val.vec3 r),
        ("J", Val.mat3 (Matrix.diagonal d)), ("g", Val.vec3 g), ("g_I", Val.vec3 g)] =
      some ⟨α, r, Matrix.diagonal d, g⟩ ∧
    Dynamics.genf Real.sqrt
        [("alpha", Val.scalar α), ("rTB", Val.vec3 r),
          ("J", Val.mat3 (Matrix.diagonal d)), ("g", Val.vec3 g), ("g_I", Val.vec3 g)]
        (List.ofFn x) (List.ofFn u) =
      Dynamics.getf Real.sqrt ⟨α, r, Matrix.diagonal d, g⟩ (List.ofFn x) (List.ofFn u) s ∧
    Dynamics.genA Real.sqrt
        [("alpha", Val.scalar α), ("rTB", Val.vec3 r),
          ("J", Val.mat3 (Matrix.diagonal d)), ("g", Val.vec3 g), ("g_I", Val.vec3 g)]
        (List.ofFn x) (List.ofFn u) s =
      Dynamics.getA Real.sqrt ⟨α, r, Matrix.diagonal d, g⟩ (List.ofFn x) (List.ofFn u) s ∧
    Dynamics.genB Real.sqrt
        [("alpha", Val.scalar α), ("rTB", Val.vec3 r),
          ("J", Val.mat3 (Matrix.diagonal d)), ("g", Val.vec3 g), ("g_I", Val.vec3 g)]
        (List.ofFn x) (List.ofFn u) s =
      Dynamics.getB Real.sqrt ⟨α, r, Matrix.diagonal d, g⟩ (List.ofFn x) (List.ofFn u) s ∧
    (Dynamics.getf Real.sqrt ⟨α, r, Matrix.diagonal d, g⟩
      (List.ofFn x) (List.ofFn u) s).isSome = true := by
  refine ⟨rfl, ?_, ?_, ?_, ?_⟩
  · unfold Dynamics.genf Dynamics.getf
    rw [unpackExact_ofFn, unpackExact_ofFn, readVals_ofFn, readVals_ofFn]
    rw [show Dynamics.genConsts
        [("alpha", Val.scalar α), ("rTB", Val.vec3 r),
          ("J", Val.mat3 (Matrix.diagonal d)), ("g", Val.vec3 g), ("g_I", Val.vec3 g)] =
      some ⟨α, r, Matrix.diagonal d, g⟩ from rfl]
    refine congrArg some (funext fun i => ?_)
    rw [skip_eval_eq]
    exact evalWith_fM_s_irrelevant Real.sqrt _ x u 0 s i
  · unfold Dynamics.genA Dynamics.getA
    rw [unpackExact_ofFn, unpackExact_ofFn, readVals_ofFn, readVals_ofFn]
    rw [show Dynamics.genConsts
        [("alpha", Val.scalar α), ("rTB", Val.vec3 r),
          ("J", Val.mat3 (Matrix.diagonal d)), ("g", Val.vec3 g), ("g_I", Val.vec3 g)] =
      some ⟨α, r, Matrix.diagonal d, g⟩ from rfl]
    refine congrArg some (funext fun i => funext fun j => ?_)
    rw [skip_eval_eq]
  · unfold Dynamics.genB Dynamics.getB
    rw [unpackExact_ofFn, unpackExact_ofFn, readVals_ofFn, readVals_ofFn]
    rw [show Dynamics.genConsts
        [("alpha", Val.scalar α), ("rTB", Val.vec3 r),
          ("J", Val.mat3 (Matrix.diagonal d)), ("g", Val.vec3 g), ("g_I", Val.vec3 g)] =
      some ⟨α, r, Matrix.diagonal d, g⟩ from rfl]
    refine congrArg some (funext fun i => funext fun j => ?_)
    rw [skip_eval_eq]
  · unfold Dynamics.getf
    rw [readVals_ofFn, readVals_ofFn]
    rfl

/-- C6 counterexample: with the constants mapping bound under exactly the
four contract names `alpha, rTB, J, g` (the concrete values of the source's
own driver), the numeric-constants-mode constructor succeeds, but a generated
evaluator configured with the same mapping fails: it reads the gravity
constant back under the attribute name `g_I`, not `g`. -/
theorem constants_names_cex :
    (mkConsts [("alpha", Val.scalar (0.1 : ℝ)), ("rTB", Val.vec3 ![-0.01, 0, 0]),
        ("J", Val.mat3 (Matrix.diagonal ![0.01, 0.01, 0.01])),
        ("g", Val.vec3 ![-1, 0, 0])]).isSome = true ∧
    Dynamics.genf Real.sqrt
      [("alpha", Val.scalar (0.1 : ℝ)), ("rTB", Val.vec3 ![-0.01, 0, 0]),
        ("J", Val.mat3 (Matrix.diagonal ![0.01, 0.01, 0.01])),
        ("g", Val.vec3 ![-1, 0, 0])]
      (List.replicate 14 (1 : ℝ)) (List.replicate 3 (1 : ℝ)) = none :=
  ⟨rfl, rfl⟩

/-- C6 (amended): the numeric-constants-mode constructor reads the constants
under exactly the keys `alpha`, `rTB`, `J`, `g`; the generated module's
configuration entry point stores an arbitrary name/value mapping, and the
generated evaluators read `alpha`, `rTB` and `J` back under those same names
but the gravity vector under the name `g_I`: configuration with `g_I` bound
succeeds, configuration with only `g` bound fails. -/
theorem constants_names_amended (α : ℝ) (r g : Fin 3 → ℝ)
    (J : Matrix (Fin 3) (Fin 3) ℝ) (x : Fin 14 → ℝ) (u : Fin 3 → ℝ) :
    mkConsts [("alpha", Val.scalar α), ("rTB", Val.vec3 r), ("J", Val.mat3 J),
        ("g", Val.vec3 g)] = some ⟨α, r, J, g⟩ ∧
    (Dynamics.genf Real.sqrt
      [("alpha", Val.scalar α), ("rTB", Val.vec3 r), ("J", Val.mat3 J),
        ("g_I", Val.vec3 g)]
      (List.ofFn x) (List.ofFn u)).isSome = true ∧
    Dynamics.genf Real.sqrt
      [("alpha", Val.scalar α), ("rTB", Val.vec3 r), ("J", Val.mat3 J),
        ("g", Val.vec3 g)]
      (List.ofFn x) (List.ofFn u) = none := by
  refine ⟨rfl, ?_, ?_⟩
  · unfold Dynamics.genf
    rw [unpackExact_ofFn, unpackExact_ofFn]
    rw [show Dynamics.genConsts
        [("alpha", Val.scalar α), ("rTB", Val.vec3 r), ("J", Val.mat3 J),
          ("g_I", Val.vec3 g)] = some ⟨α, r, J, g⟩ from rfl]
    rfl
  · unfold Dynamics.genf
    rw [unpackExact_ofFn, unpackExact_ofFn]
    rw [show Dynamics.genConsts
        [("alpha", Val.scalar α), ("rTB", Val.vec3 r), ("J", Val.mat3 J),
          ("g", Val.vec3 g)] = none from rfl]
    rfl

end Claims

end SCvx
